import Mathlib

/-!
Verification of the layout-aware RAG pipeline: chunk construction and identity
(docling_processor), retrieval ranking and filtering (neo4j_handler), citation
extraction and linking (citation_processor), and the query endpoint (main).
Python strings are modelled as Lean strings, ints as Nat, floats as ℚ, dicts
as insertion-ordered association lists, and the similarity index's response as
an explicit `Except`-valued outcome.
-/

namespace LayoutRag

/-! ### Python string primitives -/

/-- Whitespace characters stripped by Python str.strip (ASCII subset). -/
def isPySpace (c : Char) : Bool :=
  c == ' ' || c == '\t' || c == '\n' || c == '\r' || c == '\x0b' || c == '\x0c'

/-- Drop whitespace from both ends of a char list. -/
def stripChars (l : List Char) : List Char :=
  ((l.dropWhile isPySpace).reverse.dropWhile isPySpace).reverse

/-- Python str.strip: drop whitespace from both ends. -/
def pyStrip (s : String) : String := ⟨stripChars s.data⟩

/-- Python str.lower (per-character lowering). -/
def toLowerStr (s : String) : String := ⟨s.data.map Char.toLower⟩

/-- Python substring test: sub in s. -/
def strContains (s sub : String) : Bool :=
  s.data.tails.any (fun t => sub.data.isPrefixOf t)

/-! ### SHA-1 (FIPS 180-1) over byte lists, bytes as Nat < 256 -/

/-- Truncate to a 32-bit word. -/
def w32 (n : Nat) : Nat := n % 4294967296

/-- Rotate a 32-bit word left by b bits. -/
def rotl (b n : Nat) : Nat := w32 ((n <<< b) ||| (n >>> (32 - b)))

/-- Big-endian byte decomposition, n bytes. -/
def toBytesBE : Nat → Nat → List Nat
  | 0, _ => []
  | n + 1, x => toBytesBE n (x / 256) ++ [x % 256]

/-- SHA-1 message padding: append 0x80, zeros, and the 64-bit bit length. -/
def sha1Pad (msg : List Nat) : List Nat :=
  let len := msg.length
  let z := (119 - len % 64) % 64
  msg ++ [128] ++ List.replicate z 0 ++ toBytesBE 8 (len * 8)

/-- Group bytes into big-endian 32-bit words. -/
def words4 : List Nat → List Nat
  | b0 :: b1 :: b2 :: b3 :: rest => (((b0 * 256 + b1) * 256 + b2) * 256 + b3) :: words4 rest
  | _ => []

/-- Group words into 16-word blocks. -/
def blocks16 : List Nat → List (List Nat)
  | w0 :: w1 :: w2 :: w3 :: w4 :: w5 :: w6 :: w7 :: w8 :: w9 :: w10 :: w11 :: w12 :: w13 :: w14 :: w15 :: rest =>
      [w0, w1, w2, w3, w4, w5, w6, w7, w8, w9, w10, w11, w12, w13, w14, w15] :: blocks16 rest
  | _ => []

/-- Extend the message schedule; acc holds words newest-first. -/
def extSchedule (acc : List Nat) : Nat → List Nat
  | 0 => acc
  | n + 1 =>
      extSchedule (rotl 1 ((acc.getD 2 0) ^^^ (acc.getD 7 0) ^^^ (acc.getD 13 0) ^^^ (acc.getD 15 0)) :: acc) n

/-- The 80-word schedule of a 16-word block. -/
def schedule80 (block : List Nat) : List Nat :=
  (extSchedule block.reverse 64).reverse

/-- Round function and constant for round t. -/
def sha1FK (t b c d : Nat) : Nat × Nat :=
  if t < 20 then ((b &&& c) ||| ((b ^^^ 4294967295) &&& d), 1518500249)
  else if t < 40 then (b ^^^ c ^^^ d, 1859775393)
  else if t < 60 then ((b &&& c) ||| (b &&& d) ||| (c &&& d), 2400959708)
  else (b ^^^ c ^^^ d, 3395469782)

/-- One SHA-1 round. -/
def sha1Round (st : Nat × Nat × Nat × Nat × Nat) (tw : Nat × Nat) : Nat × Nat × Nat × Nat × Nat :=
  let (a, b, c, d, e) := st
  let (f, k) := sha1FK tw.1 b c d
  (w32 (rotl 5 a + f + e + k + tw.2), a, rotl 30 b, c, d)

/-- Compress one block into the running hash state. -/
def sha1Compress (h : Nat × Nat × Nat × Nat × Nat) (block : List Nat) : Nat × Nat × Nat × Nat × Nat :=
  let (h0, h1, h2, h3, h4) := h
  let (a, b, c, d, e) := (schedule80 block).enum.foldl sha1Round (h0, h1, h2, h3, h4)
  (w32 (h0 + a), w32 (h1 + b), w32 (h2 + c), w32 (h3 + d), w32 (h4 + e))

/-- SHA-1 digest (20 bytes) of a byte list. -/
def sha1Bytes (msg : List Nat) : List Nat :=
  let (h0, h1, h2, h3, h4) :=
    (blocks16 (words4 (sha1Pad msg))).foldl sha1Compress
      (1732584193, 4023233417, 2562383102, 271733878, 3285377520)
  toBytesBE 4 h0 ++ toBytesBE 4 h1 ++ toBytesBE 4 h2 ++ toBytesBE 4 h3 ++ toBytesBE 4 h4

/-- Lowercase hex digit. -/
def hexDigit (n : Nat) : Char := if n < 10 then Char.ofNat (48 + n) else Char.ofNat (87 + n)

/-- Lowercase hex rendering of a byte list. -/
def bytesHex (bs : List Nat) : String :=
  ⟨bs.foldr (fun b acc => hexDigit (b / 16) :: hexDigit (b % 16) :: acc) []⟩

/-- UTF-8 encoding of one character. -/
def utf8Bytes (c : Char) : List Nat :=
  let n := c.toNat
  if n < 128 then [n]
  else if n < 2048 then [192 ||| (n >>> 6), 128 ||| (n &&& 63)]
  else if n < 65536 then [224 ||| (n >>> 12), 128 ||| ((n >>> 6) &&& 63), 128 ||| (n &&& 63)]
  else [240 ||| (n >>> 18), 128 ||| ((n >>> 12) &&& 63), 128 ||| ((n >>> 6) &&& 63), 128 ||| (n &&& 63)]

/-- UTF-8 bytes of a string (Python str.encode). -/
def strBytes (s : String) : List Nat := s.data.flatMap utf8Bytes

/-- SHA-1 hex digest of a string, as hashlib.sha1(s.encode()).hexdigest(). -/
def sha1Hex (s : String) : String := bytesHex (sha1Bytes (strBytes s))

/-! ### Chunk builder (DoclingProcessor) -/

/-- An axis-aligned box [left, top, right, bottom] in page coordinates. -/
structure BBox where
  l : ℚ
  t : ℚ
  r : ℚ
  b : ℚ
deriving DecidableEq, Repr

/-- One provenance record of a doc item: page number and optional box. -/
structure Prov where
  pageNo : Nat
  bbox : Option BBox
deriving DecidableEq, Repr

/-- A constituent layout item of a proposed chunk. -/
structure DocItem where
  prov : List Prov
deriving DecidableEq, Repr

/-- A chunk proposed by the hybrid chunker, before the builder's own processing. -/
structure RawChunk where
  text : String
  docItems : List DocItem
  headings : List String
deriving DecidableEq, Repr

/-- DoclingProcessor.make_id: SHA-1 of "page:first-160-chars". -/
def make_id (text : String) (page : Nat) : String :=
  sha1Hex (toString page ++ ":" ++ text.take 160)

/-- Merge of a non-empty list of boxes: min left, max top, max right, min bottom. -/
def mergeBboxes : List BBox → Option BBox
  | [] => none
  | x :: xs =>
      some ⟨(xs.map BBox.l).foldl min x.l, (xs.map BBox.t).foldl max x.t,
            (xs.map BBox.r).foldl max x.r, (xs.map BBox.b).foldl min x.b⟩

/-- The doc-items loop of structure_aware_chunking: page_num starts at 1 and is
overwritten by the first provenance of every item that has one; the box of that
provenance, when present, is appended to the collected list. -/
def pageAndBoxes (items : List DocItem) : Nat × List BBox :=
  items.foldl
    (fun acc it =>
      match it.prov with
      | [] => acc
      | p :: _ => (p.pageNo, match p.bbox with | some bb => acc.2 ++ [bb] | none => acc.2))
    (1, [])

/-- Final page number and bbox of a proposed chunk ([0,0,0,0] when no box found). -/
def chunkPageBbox (items : List DocItem) : Nat × BBox :=
  let pb := pageAndBoxes items
  (pb.1, match mergeBboxes pb.2 with | some m => m | none => ⟨0, 0, 0, 0⟩)

/-- A chunk emitted by the builder. -/
structure ChunkData where
  id : String
  text : String
  pageNum : Nat
  bbox : BBox
  headings : List String
  embedding : List ℚ
deriving DecidableEq, Repr

/-- DoclingProcessor.structure_aware_chunking, given the external chunker's
proposed chunks and the external embedding service embedF. -/
def structureAwareChunking (embedF : String → List ℚ) (proposed : List RawChunk) :
    List ChunkData :=
  proposed.filterMap fun ch =>
    let pb := chunkPageBbox ch.docItems
    let text := pyStrip ch.text
    if text = "" then none
    else some ⟨make_id text pb.1, text, pb.1, pb.2, ch.headings, embedF text⟩

/-! ### Evidence store and vector search (Neo4jHandler) -/

/-- A Document node. -/
structure StoreDoc where
  id : String
  title : String
  family : String
deriving DecidableEq, Repr

/-- A Page node, keyed by (docId, page_num). -/
structure StorePage where
  docId : String
  pageNum : Nat
deriving DecidableEq, Repr

/-- A Chunk node (family is absent unless some ingestion path sets it). -/
structure StoreChunk where
  id : String
  text : String
  pageNum : Nat
  bbox : BBox
  headings : List String
  family : Option String
deriving DecidableEq, Repr

/-- The graph: nodes plus IN_PAGE and OF relationships. -/
structure Store where
  docs : List StoreDoc
  pages : List StorePage
  chunks : List StoreChunk
  inPage : List (String × String × Nat)
  ofDoc : List ((String × Nat) × String)
deriving DecidableEq, Repr

/-- The chunk projection c {.id, .text, .bbox, .page_num, .headings}. -/
structure ChunkProj where
  id : String
  text : String
  bbox : BBox
  pageNum : Nat
  headings : List String
deriving DecidableEq, Repr

/-- The document projection d {.id, .title}. -/
structure DocProj where
  id : String
  title : String
deriving DecidableEq, Repr

/-- One row of the search result (models.QueryResult). -/
structure QueryResult where
  chunk : ChunkProj
  doc : DocProj
  page : Nat
  score : ℚ
deriving DecidableEq, Repr

/-- Projection of a chunk node. -/
def projChunk (c : StoreChunk) : ChunkProj := ⟨c.id, c.text, c.bbox, c.pageNum, c.headings⟩

/-- The WHERE clause: c.family = $docType OR
EXISTS((c)-[:IN_PAGE]->(:Page)-[:OF]->(:Document with family docType)).
A null c.family compares as false, per Cypher null semantics. -/
def familyPred (st : Store) (docType : String) (c : StoreChunk) : Bool :=
  (match c.family with | some f => f == docType | none => false)
  || st.inPage.any fun e =>
       e.1 == c.id && st.ofDoc.any fun e2 =>
         e2.1 == e.2 && st.docs.any fun d => d.id == e2.2 && d.family == docType

/-- The conditional WHERE filter: applied only when doc_type is truthy (non-None,
non-empty) and not "general", mirroring if doc_type and doc_type != "general". -/
def applyFamilyFilter (st : Store) (docType : Option String)
    (cands : List (StoreChunk × ℚ)) : List (StoreChunk × ℚ) :=
  match docType with
  | none => cands
  | some dt =>
      if dt = "" || dt = "general" then cands
      else cands.filter fun cs => familyPred st dt cs.1

/-- MATCH (c)-[:IN_PAGE]->(p:Page)-[:OF]->(d:Document) rows for one candidate. -/
def joinRows (st : Store) (c : StoreChunk) (score : ℚ) : List QueryResult :=
  (st.inPage.filter fun e => e.1 == c.id).flatMap fun e =>
    (st.pages.filter fun p => p.docId == e.2.1 && p.pageNum == e.2.2).flatMap fun p =>
      (st.ofDoc.filter fun e2 => e2.1 == e.2).flatMap fun e2 =>
        (st.docs.filter fun d => d.id == e2.2).map fun d =>
          ⟨projChunk c, ⟨d.id, d.title⟩, p.pageNum, score⟩

/-- Insert one row into a list sorted by descending score. -/
def insertDesc (r : QueryResult) : List QueryResult → List QueryResult
  | [] => [r]
  | x :: xs => if x.score ≤ r.score then r :: x :: xs else x :: insertDesc r xs

/-- ORDER BY score DESC. -/
def sortDesc (l : List QueryResult) : List QueryResult := l.foldr insertDesc []

/-- The Cypher query body of vector_search: filter the candidates yielded by the
vector index, join each to its Page and Document, order by descending score,
and truncate to the limit. -/
def vectorSearchRows (st : Store) (cands : List (StoreChunk × ℚ))
    (docType : Option String) (lim : Nat) : List QueryResult :=
  (sortDesc ((applyFamilyFilter st docType cands).flatMap fun cs => joinRows st cs.1 cs.2)).take lim

/-- Neo4jHandler.vector_search: execute the query on the store's outcome; any
failure of the similarity query is caught and yields the empty list. -/
def vector_search (st : Store) (outcome : Except String (List (StoreChunk × ℚ)))
    (docType : Option String) (lim : Nat) : List QueryResult :=
  match outcome with
  | .error _ => []
  | .ok cands => vectorSearchRows st cands docType lim

/-! ### Citation processor -/

/-- The evidence payload backing a citation. -/
structure Payload where
  docId : String
  page : Nat
  bbox : BBox
  text : String
deriving DecidableEq, Repr

/-- Python dict get (first binding wins; bindings are kept unique by dictInsert). -/
def dictGet (d : List (String × Payload)) (k : String) : Option Payload :=
  (d.find? fun p => p.1 == k).map Prod.snd

/-- Python dict assignment d[k] = v: overwrite in place or append. -/
def dictInsert (d : List (String × Payload)) (k : String) (v : Payload) :
    List (String × Payload) :=
  if d.any fun p => p.1 == k then d.map (fun p => if p.1 == k then (k, v) else p)
  else d ++ [(k, v)]

/-- Split a char list at the first close bracket: chars before it, rest after it. -/
def breakClose : List Char → List Char × Option (List Char)
  | [] => ([], none)
  | c :: rest =>
      if c = ']' then ([], some rest)
      else
        let p := breakClose rest
        (c :: p.1, p.2)

theorem breakClose_some {l : List Char} {a b : List Char}
    (h : breakClose l = (a, some b)) : l = a ++ ']' :: b := by
  induction l generalizing a b with
  | nil => simp [breakClose] at h
  | cons c rest ih =>
    by_cases hc : c = ']'
    · simp [breakClose, hc] at h
      simp [hc, h.1, h.2]
    · simp [breakClose, hc] at h
      obtain ⟨h1, h2⟩ := h
      cases hp : breakClose rest with
      | mk x y =>
        rw [hp] at h1 h2
        simp at h1 h2
        subst h1
        cases y with
        | none => simp at h2
        | some b2 => simp at h2; subst h2; simp [ih hp]

theorem breakClose_some_length {l a b : List Char}
    (h : breakClose l = (a, some b)) : b.length < l.length := by
  have := breakClose_some h
  subst this
  simp
  omega

/-- Fuel-driven scanner for all matches of the citation-marker pattern: an open
bracket, a non-empty run of non-close-bracket characters, a close bracket. -/
def findallMarkersF : Nat → List Char → List String
  | _, [] => []
  | 0, _ => []
  | fuel + 1, c :: rest =>
    if c = '[' then
      match breakClose rest with
      | (run, some tail) =>
          if run.isEmpty then findallMarkersF fuel rest
          else (⟨run⟩ : String) :: findallMarkersF fuel tail
      | (_, none) => findallMarkersF fuel rest
    else findallMarkersF fuel rest

/-- All matches of the citation-marker pattern, in order (re.findall). -/
def findallMarkers (cs : List Char) : List String := findallMarkersF cs.length cs

/-- Fuel-driven scanner for re.sub over the citation-marker pattern. -/
def subMarkersF (repl : String → String) : Nat → List Char → List Char
  | _, [] => []
  | 0, cs => cs
  | fuel + 1, c :: rest =>
    if c = '[' then
      match breakClose rest with
      | (run, some tail) =>
          if run.isEmpty then c :: subMarkersF repl fuel rest
          else (repl ⟨run⟩).data ++ subMarkersF repl fuel tail
      | (_, none) => c :: subMarkersF repl fuel rest
    else c :: subMarkersF repl fuel rest

/-- re.sub over the citation-marker pattern with a replacement function. -/
def subMarkers (repl : String → String) (cs : List Char) : List Char :=
  subMarkersF repl cs.length cs

/-- The evidence payload built from one search result. -/
def payloadOf (r : QueryResult) : Payload :=
  ⟨r.doc.id, r.chunk.pageNum, r.chunk.bbox, r.chunk.text⟩

/-- CitationProcessor.extract_cited_chunks. -/
def extractCitedChunks (answerText : String) (searchResults : List QueryResult) :
    List (String × Payload) :=
  let citedIds := findallMarkers answerText.data
  searchResults.foldl
    (fun d r => if citedIds.contains r.chunk.id then dictInsert d r.chunk.id (payloadOf r) else d)
    []

/-- Decimal rendering of a coordinate. -/
def ratStr (q : ℚ) : String :=
  if q.den = 1 then toString q.num else toString q.num ++ "/" ++ toString q.den

/-- The viewer URL built by linkify_citations. -/
def viewerUrl (p : Payload) : String :=
  "/viewer?doc=" ++ p.docId ++ "&page=" ++ toString p.page ++ "&bbox=" ++
    ratStr p.bbox.l ++ "," ++ ratStr p.bbox.t ++ "," ++ ratStr p.bbox.r ++ "," ++ ratStr p.bbox.b

/-- The repl callback of linkify_citations: strip the matched identifier, look
it up; unresolved identifiers are re-bracketed, resolved ones become links. -/
def linkRepl (m : List (String × Payload)) (matched : String) : String :=
  let chunkId := pyStrip matched
  match dictGet m chunkId with
  | none => "[" ++ chunkId ++ "]"
  | some p =>
      "[<a href=\x27" ++ viewerUrl p ++ "\x27 target=\x27_blank\x27 rel=\x27noopener\x27>" ++
        chunkId ++ "</a>]"

/-- CitationProcessor.linkify_citations. -/
def linkifyCitations (text : String) (m : List (String × Payload)) : String :=
  ⟨subMarkers (linkRepl m) text.data⟩

/-! ### Query endpoint (main.query_documents) -/

/-- The general fallback of generate_answer_with_citations. -/
def generalFallback (searchResults : List QueryResult) : String :=
  let answer := (searchResults.take 2).foldl
    (fun acc result =>
      let chunkText := result.chunk.text
      if 100 < chunkText.length then
        let firstSentence := pyStrip ((chunkText.split (· == '.')).getD 0 "")
        if 50 < firstSentence.length then
          acc ++ "• " ++ firstSentence ++ ". [" ++ result.chunk.id ++ "]\n\n"
        else
          acc ++ "• " ++ (chunkText.take 200 ++ "...") ++ " [" ++ result.chunk.id ++ "]\n\n"
      else acc ++ "• " ++ chunkText ++ " [" ++ result.chunk.id ++ "]\n\n")
    "Based on the retrieved documents:\n\n"
  pyStrip answer

/-- CitationProcessor.generate_answer_with_citations. -/
def generateAnswerWithCitations (query : String) (searchResults : List QueryResult) : String :=
  if searchResults.isEmpty then "No relevant information found to answer your query."
  else if strContains (toLowerStr query) "handicap" then
    let direct := searchResults.findSome? fun result =>
      let ct := toLowerStr result.chunk.text
      if strContains ct "handicap" &&
          (strContains ct "means" || strContains ct "defined" || strContains ct "definition") then
        (result.chunk.text.split (· == '\n')).findSome? fun line =>
          if strContains (toLowerStr line) "handicap" then
            some ("According to the document: " ++ pyStrip line ++ " [" ++ result.chunk.id ++ "]")
          else none
      else none
    match direct with
    | some a => a
    | none =>
      let relevant :=
        (searchResults.take 2).filter fun r => strContains (toLowerStr r.chunk.text) "handicap"
      if !relevant.isEmpty then
        let answer := relevant.foldl
          (fun acc result =>
            match (result.chunk.text.split (· == '.')).find? (fun sentence =>
                strContains (toLowerStr sentence) "handicap" &&
                  10 < (pyStrip sentence).length) with
            | some sentence => acc ++ "• " ++ pyStrip sentence ++ ". [" ++ result.chunk.id ++ "]\n\n"
            | none => acc)
          "Based on the Fair Housing Act documents, the term \x27handicap\x27 appears in the following context:\n\n"
        pyStrip answer
      else generalFallback searchResults
  else generalFallback searchResults

/-- The /query response (models.QueryResponse). -/
structure QueryResponse where
  answer : String
  chunks : List QueryResult
  citedChunks : List (String × Payload)
deriving DecidableEq, Repr

/-- main.query_documents after the vector search has produced its results. -/
def queryRespond (query : String) (searchResults : List QueryResult) : QueryResponse :=
  if searchResults.isEmpty then
    ⟨"No relevant documents found for your query.", [], []⟩
  else
    let answer := generateAnswerWithCitations query searchResults
    ⟨answer, searchResults, extractCitedChunks answer searchResults⟩

/-- The full /query pipeline given the store's response to the similarity query. -/
def queryDocuments (query : String) (st : Store)
    (outcome : Except String (List (StoreChunk × ℚ)))
    (docType : Option String) (lim : Nat) : QueryResponse :=
  queryRespond query (vector_search st outcome docType lim)


/-! ### Helper lemmas: fold min/max -/

theorem foldl_min_le_init {α : Type} [LinearOrder α] (xs : List α) (a : α) :
    xs.foldl min a ≤ a := by
  induction xs generalizing a with
  | nil => simp
  | cons x xs ih => exact le_trans (ih (min a x)) (min_le_left a x)

theorem foldl_min_le_mem {α : Type} [LinearOrder α] {xs : List α} {x : α} (h : x ∈ xs) (a : α) :
    xs.foldl min a ≤ x := by
  induction xs generalizing a with
  | nil => simp at h
  | cons y ys ih =>
    rcases List.mem_cons.mp h with h1 | h2
    · subst h1
      exact le_trans (foldl_min_le_init ys (min a x)) (min_le_right a x)
    · exact ih h2 (min a y)

theorem foldl_min_attained {α : Type} [LinearOrder α] (xs : List α) (a : α) :
    xs.foldl min a = a ∨ xs.foldl min a ∈ xs := by
  induction xs generalizing a with
  | nil => left; rfl
  | cons x xs ih =>
    rcases ih (min a x) with h | h
    · rcases min_choice a x with he | he
      · left; simp only [List.foldl_cons]; rw [h, he]
      · right; simp only [List.foldl_cons]; rw [h, he]; exact List.mem_cons_self x xs
    · right; exact List.mem_cons_of_mem x h

theorem le_foldl_max_init {α : Type} [LinearOrder α] (xs : List α) (a : α) :
    a ≤ xs.foldl max a := by
  induction xs generalizing a with
  | nil => simp
  | cons x xs ih => exact le_trans (le_max_left a x) (ih (max a x))

theorem mem_le_foldl_max {α : Type} [LinearOrder α] {xs : List α} {x : α} (h : x ∈ xs) (a : α) :
    x ≤ xs.foldl max a := by
  induction xs generalizing a with
  | nil => simp at h
  | cons y ys ih =>
    rcases List.mem_cons.mp h with h1 | h2
    · subst h1
      exact le_trans (le_max_right a x) (le_foldl_max_init ys (max a x))
    · exact ih h2 (max a y)

theorem foldl_max_attained {α : Type} [LinearOrder α] (xs : List α) (a : α) :
    xs.foldl max a = a ∨ xs.foldl max a ∈ xs := by
  induction xs generalizing a with
  | nil => left; rfl
  | cons x xs ih =>
    rcases ih (max a x) with h | h
    · rcases max_choice a x with he | he
      · left; simp only [List.foldl_cons]; rw [h, he]
      · right; simp only [List.foldl_cons]; rw [h, he]; exact List.mem_cons_self x xs
    · right; exact List.mem_cons_of_mem x h

/-- C2: for every chunk whose constituent items contribute at least one
provenance bounding box, the merged bounding box is [min left, max top,
max right, min bottom] over the constituent boxes — each coordinate is a bound
over the list and is attained by some constituent box — hence it contains every
constituent box; and merging [0,10,5,0] with [3,12,8,2] yields [0,12,8,0]. -/
theorem merged_bbox_spec :
    (∀ items : List DocItem, (pageAndBoxes items).2 ≠ [] →
      mergeBboxes (pageAndBoxes items).2 = some (chunkPageBbox items).2) ∧
    (∀ (bs : List BBox) (m : BBox), mergeBboxes bs = some m →
      (∀ bb ∈ bs, m.l ≤ bb.l ∧ bb.t ≤ m.t ∧ bb.r ≤ m.r ∧ m.b ≤ bb.b) ∧
      (∃ b1 ∈ bs, m.l = b1.l) ∧ (∃ b2 ∈ bs, m.t = b2.t) ∧
      (∃ b3 ∈ bs, m.r = b3.r) ∧ (∃ b4 ∈ bs, m.b = b4.b)) ∧
    mergeBboxes [⟨0, 10, 5, 0⟩, ⟨3, 12, 8, 2⟩] = some ⟨0, 12, 8, 0⟩ := by
  refine ⟨?_, ?_, by decide⟩
  · intro items hne
    cases hb : (pageAndBoxes items).2 with
    | nil => exact absurd hb hne
    | cons x xs =>
      simp only [chunkPageBbox]
      rw [hb]
      simp [mergeBboxes]
  · intro bs m hm
    cases bs with
    | nil => simp [mergeBboxes] at hm
    | cons x xs =>
      simp only [mergeBboxes, Option.some_inj] at hm
      subst hm
      refine ⟨?_, ?_, ?_, ?_, ?_⟩
      · intro bb hbb
        rcases List.mem_cons.mp hbb with h1 | h2
        · subst h1
          exact ⟨foldl_min_le_init _ _, le_foldl_max_init _ _, le_foldl_max_init _ _,
            foldl_min_le_init _ _⟩
        · exact ⟨foldl_min_le_mem (List.mem_map_of_mem BBox.l h2) _,
            mem_le_foldl_max (List.mem_map_of_mem BBox.t h2) _,
            mem_le_foldl_max (List.mem_map_of_mem BBox.r h2) _,
            foldl_min_le_mem (List.mem_map_of_mem BBox.b h2) _⟩
      · rcases foldl_min_attained (xs.map BBox.l) x.l with h | h
        · exact ⟨x, List.mem_cons_self x xs, h⟩
        · rcases List.mem_map.mp h with ⟨b1, hb1, he⟩
          exact ⟨b1, List.mem_cons_of_mem x hb1, he.symm⟩
      · rcases foldl_max_attained (xs.map BBox.t) x.t with h | h
        · exact ⟨x, List.mem_cons_self x xs, h⟩
        · rcases List.mem_map.mp h with ⟨b1, hb1, he⟩
          exact ⟨b1, List.mem_cons_of_mem x hb1, he.symm⟩
      · rcases foldl_max_attained (xs.map BBox.r) x.r with h | h
        · exact ⟨x, List.mem_cons_self x xs, h⟩
        · rcases List.mem_map.mp h with ⟨b1, hb1, he⟩
          exact ⟨b1, List.mem_cons_of_mem x hb1, he.symm⟩
      · rcases foldl_min_attained (xs.map BBox.b) x.b with h | h
        · exact ⟨x, List.mem_cons_self x xs, h⟩
        · rcases List.mem_map.mp h with ⟨b1, hb1, he⟩
          exact ⟨b1, List.mem_cons_of_mem x hb1, he.symm⟩

/-- Witness for merged_bbox_spec at a concrete two-item chunk spanning two boxes. -/
theorem merged_bbox_spec_witness :
    mergeBboxes (pageAndBoxes
        [⟨[⟨1, some ⟨0, 10, 5, 0⟩⟩]⟩, ⟨[⟨1, some ⟨3, 12, 8, 2⟩⟩]⟩]).2 =
      some (chunkPageBbox
        [⟨[⟨1, some ⟨0, 10, 5, 0⟩⟩]⟩, ⟨[⟨1, some ⟨3, 12, 8, 2⟩⟩]⟩]).2 ∧
    (0 : ℚ) ≤ 0 ∧ (10 : ℚ) ≤ 12 := by
  refine ⟨merged_bbox_spec.1 _ (by decide), by norm_num⟩


/-! ### Helper lemmas: stripping is idempotent -/

theorem dropWhile_head_false {α : Type} {p : α → Bool} {l : List α} {x : α} {xs : List α}
    (h : l.dropWhile p = x :: xs) : p x = false := by
  induction l with
  | nil => simp at h
  | cons y ys ih =>
    rw [List.dropWhile_cons] at h
    by_cases hy : p y = true
    · rw [if_pos hy] at h
      exact ih h
    · rw [if_neg hy] at h
      injection h with h1 h2
      subst h1
      simpa using hy

theorem dropWhile_dropWhile {α : Type} (p : α → Bool) (l : List α) :
    (l.dropWhile p).dropWhile p = l.dropWhile p := by
  cases hd : l.dropWhile p with
  | nil => rfl
  | cons x xs =>
    rw [List.dropWhile_cons, dropWhile_head_false hd]
    simp

theorem stripChars_idem (l : List Char) : stripChars (stripChars l) = stripChars l := by
  unfold stripChars
  have h2 : (((l.dropWhile isPySpace).reverse.dropWhile isPySpace).reverse).reverse.dropWhile
      isPySpace = ((l.dropWhile isPySpace).reverse.dropWhile isPySpace) := by
    rw [List.reverse_reverse]
    exact dropWhile_dropWhile isPySpace (l.dropWhile isPySpace).reverse
  have h1 : (((l.dropWhile isPySpace).reverse.dropWhile isPySpace).reverse).dropWhile isPySpace =
      ((l.dropWhile isPySpace).reverse.dropWhile isPySpace).reverse := by
    cases hdd : ((l.dropWhile isPySpace).reverse.dropWhile isPySpace).reverse with
    | nil => rfl
    | cons c d2 =>
      have hpre : ((l.dropWhile isPySpace).reverse.dropWhile isPySpace).reverse <+:
          l.dropWhile isPySpace := by
        have hsuf : (l.dropWhile isPySpace).reverse.dropWhile isPySpace <:+
            (l.dropWhile isPySpace).reverse := List.dropWhile_suffix isPySpace
        have := List.reverse_prefix.mpr hsuf
        simpa using this
      obtain ⟨tl, ht⟩ := hpre
      rw [hdd] at ht
      have hm : l.dropWhile isPySpace = c :: (d2 ++ tl) := by
        rw [← ht]
        simp
      have hc : isPySpace c = false := dropWhile_head_false hm
      rw [List.dropWhile_cons, hc]
      simp
  rw [h1, h2]

theorem pyStrip_idem (s : String) : pyStrip (pyStrip s) = pyStrip s := by
  unfold pyStrip
  exact congrArg String.mk (stripChars_idem s.data)

/-- C9: a proposed chunk whose text strips to the empty string produces no chunk
(removing such chunks from the input leaves the output unchanged), and every
emitted chunk has non-empty trimmed text (its text is its own strip and is
non-empty). -/
theorem empty_chunk_exclusion :
    (∀ (embedF : String → List ℚ) (proposed : List RawChunk),
      structureAwareChunking embedF proposed =
        structureAwareChunking embedF
          (proposed.filter fun ch => !(pyStrip ch.text == ""))) ∧
    (∀ (embedF : String → List ℚ) (proposed : List RawChunk) (c : ChunkData),
      c ∈ structureAwareChunking embedF proposed →
      c.text ≠ "" ∧ pyStrip c.text = c.text) := by
  constructor
  · intro embedF proposed
    induction proposed with
    | nil => rfl
    | cons ch rest ih =>
      by_cases h : pyStrip ch.text = ""
      · simpa [structureAwareChunking, List.filterMap_cons, List.filter_cons, h] using ih
      · simpa [structureAwareChunking, List.filterMap_cons, List.filter_cons, h] using ih
  · intro embedF proposed c hc
    simp only [structureAwareChunking, List.mem_filterMap] at hc
    obtain ⟨ch, hch, hf⟩ := hc
    by_cases h : pyStrip ch.text = ""
    · simp [h] at hf
    · simp only [if_neg h] at hf
      injection hf with hf
      subst hf
      exact ⟨h, pyStrip_idem ch.text⟩


set_option maxRecDepth 1000000 in
/-- C1: every chunk built by the builder has id equal to the SHA-1 hex digest of
"page:first-160-characters-of-trimmed-text"; the id computation is a function
of (page, first 160 characters) only, so equal inputs (and equal first-160-char
prefixes on the same page) give equal ids, and the spec\x27s concrete instances
with a different page or different leading text give different ids. -/
theorem chunk_id_spec :
    (∀ (text : String) (page : Nat),
      make_id text page = sha1Hex (toString page ++ ":" ++ text.take 160)) ∧
    (∀ (embedF : String → List ℚ) (proposed : List RawChunk) (c : ChunkData),
      c ∈ structureAwareChunking embedF proposed →
      c.id = sha1Hex (toString c.pageNum ++ ":" ++ c.text.take 160)) ∧
    (∀ (t1 t2 : String) (page : Nat), t1.take 160 = t2.take 160 →
      make_id t1 page = make_id t2 page) ∧
    make_id "handicap means..." 3 = make_id "handicap means..." 3 ∧
    make_id "handicap means..." 3 ≠ make_id "handicap means..." 4 ∧
    make_id "handicap means..." 3 ≠ make_id "Handicap means..." 3 := by
  refine ⟨fun _ _ => rfl, ?_, ?_, rfl, by decide, by decide⟩
  · intro embedF proposed c hc
    simp only [structureAwareChunking, List.mem_filterMap] at hc
    obtain ⟨ch, hch, hf⟩ := hc
    by_cases h : pyStrip ch.text = ""
    · simp [h] at hf
    · simp only [if_neg h] at hf
      injection hf with hf
      subst hf
      rfl
  · intro t1 t2 page h
    unfold make_id
    rw [h]

set_option maxRecDepth 1000000 in
/-- Witness: chunk_id_spec applied at concrete inputs — two texts agreeing on
their first 160 characters get the same id, and a concretely built chunk has
the hash-of-page-and-prefix id. -/
theorem chunk_id_spec_witness :
    make_id (String.mk (List.replicate 160 'a') ++ "XYZ") 5 =
      make_id (String.mk (List.replicate 160 'a') ++ "PQR") 5 ∧
    (⟨make_id "hi" 1, "hi", 1, ⟨0, 0, 0, 0⟩, [], []⟩ : ChunkData).id =
      sha1Hex (toString (1 : Nat) ++ ":" ++ ("hi" : String).take 160) :=
  ⟨chunk_id_spec.2.2.1 _ _ 5 (by decide),
   chunk_id_spec.2.1 (fun _ => []) [⟨"hi", [], []⟩] _ (by decide)⟩


/-! ### Helper lemmas: the doc-items loop -/

/-- The boxes collected by the doc-items loop, as one traversal: the first
provenance box of every item that has a provenance record, page-independent. -/
def collectBoxes (items : List DocItem) : List BBox :=
  items.flatMap fun it =>
    match it.prov with
    | [] => []
    | p :: _ => match p.bbox with | some bb => [bb] | none => []

/-- Page number of the first provenance of an item (1 when absent). -/
def headProvPage (it : DocItem) : Nat :=
  match it.prov with
  | [] => 1
  | p :: _ => p.pageNo

theorem foldl_page_boxes (items : List DocItem) (init : Nat × List BBox) :
    items.foldl
      (fun acc it =>
        match it.prov with
        | [] => acc
        | p :: _ => (p.pageNo, match p.bbox with | some bb => acc.2 ++ [bb] | none => acc.2))
      init =
    (((items.filter fun it => !it.prov.isEmpty).getLast?).elim init.1 headProvPage,
      init.2 ++ collectBoxes items) := by
  induction items generalizing init with
  | nil => simp [collectBoxes]
  | cons it rest ih =>
    cases hp : it.prov with
    | nil =>
      simp only [List.foldl_cons, hp]
      rw [ih]
      simp [List.filter_cons, hp, collectBoxes]
    | cons p ps =>
      simp only [List.foldl_cons, hp]
      rw [ih]
      have hpage : ∀ l : List DocItem,
          ((it :: l).getLast?).elim init.1 headProvPage =
            (l.getLast?).elim p.pageNo headProvPage := by
        intro l
        cases hl : l.getLast? with
        | none =>
          rw [List.getLast?_eq_none_iff.mp hl]
          simp [headProvPage, hp]
        | some it2 =>
          cases l with
          | nil => simp at hl
          | cons b bs =>
            rw [List.getLast?_cons_cons, hl]
            simp
      have hfil : (it :: rest).filter (fun it2 => !it2.prov.isEmpty) =
          it :: rest.filter (fun it2 => !it2.prov.isEmpty) := by
        simp [List.filter_cons, hp]
      rw [hfil, hpage]
      have hcoll : collectBoxes (it :: rest) =
          (match p.bbox with | some bb => [bb] | none => []) ++ collectBoxes rest := by
        simp [collectBoxes, hp]
      rw [hcoll]
      cases hb : p.bbox with
      | some bb => simp
      | none => simp

/-- C10: for every chunk with at least one constituent item carrying a
provenance record, the chunk page is the page_no of the first provenance of the
last such item; the collected boxes are gathered from all items regardless of
page, and when non-empty the chunk bbox is their merge. -/
theorem chunk_page_from_last_item :
    (∀ (items : List DocItem) (it : DocItem) (p : Prov) (ps : List Prov),
      (items.filter fun it2 => !it2.prov.isEmpty).getLast? = some it →
      it.prov = p :: ps →
      (chunkPageBbox items).1 = p.pageNo) ∧
    (∀ items : List DocItem, (pageAndBoxes items).2 = collectBoxes items) ∧
    (∀ items : List DocItem, collectBoxes items ≠ [] →
      mergeBboxes (collectBoxes items) = some (chunkPageBbox items).2) := by
  have hpb : ∀ items : List DocItem, pageAndBoxes items =
      (((items.filter fun it => !it.prov.isEmpty).getLast?).elim 1 headProvPage,
        collectBoxes items) := by
    intro items
    unfold pageAndBoxes
    rw [foldl_page_boxes]
    simp
  refine ⟨?_, ?_, ?_⟩
  · intro items it p ps hlast hprov
    have : (chunkPageBbox items).1 = (pageAndBoxes items).1 := rfl
    rw [this, hpb, hlast]
    simp [headProvPage, hprov]
  · intro items
    rw [hpb]
  · intro items hne
    have h2 : (pageAndBoxes items).2 = collectBoxes items := by rw [hpb]
    cases hc : collectBoxes items with
    | nil => exact absurd hc hne
    | cons x xs =>
      simp only [chunkPageBbox]
      rw [h2, hc]
      simp [mergeBboxes]

/-- Witness: chunk_page_from_last_item on a concrete chunk whose two items lie
on pages 1 and 2: the page is 2 (the last item), and the bbox still merges the
boxes of both pages. -/
theorem chunk_page_from_last_item_witness :
    (chunkPageBbox [⟨[⟨1, some ⟨0, 10, 5, 0⟩⟩]⟩, ⟨[⟨2, some ⟨3, 12, 8, 2⟩⟩]⟩]).1 = 2 ∧
    mergeBboxes (collectBoxes [⟨[⟨1, some ⟨0, 10, 5, 0⟩⟩]⟩, ⟨[⟨2, some ⟨3, 12, 8, 2⟩⟩]⟩]) =
      some (chunkPageBbox [⟨[⟨1, some ⟨0, 10, 5, 0⟩⟩]⟩, ⟨[⟨2, some ⟨3, 12, 8, 2⟩⟩]⟩]).2 :=
  ⟨chunk_page_from_last_item.1 _ ⟨[⟨2, some ⟨3, 12, 8, 2⟩⟩]⟩ ⟨2, some ⟨3, 12, 8, 2⟩⟩ []
      (by decide) rfl,
   chunk_page_from_last_item.2.2 _ (by decide)⟩


/-! ### Helper lemmas: dict operations -/

theorem find?_append_none {α : Type} {p : α → Bool} {l1 : List α}
    (h : l1.find? p = none) (l2 : List α) : (l1 ++ l2).find? p = l2.find? p := by
  induction l1 with
  | nil => rfl
  | cons x xs ih =>
    by_cases hx : p x = true
    · rw [List.find?_cons_of_pos _ hx] at h
      simp at h
    · rw [List.find?_cons_of_neg _ hx] at h
      rw [List.cons_append, List.find?_cons_of_neg _ hx]
      exact ih h

theorem find?_append_some {α : Type} {p : α → Bool} {l1 : List α} {x : α}
    (h : l1.find? p = some x) (l2 : List α) : (l1 ++ l2).find? p = some x := by
  induction l1 with
  | nil => simp at h
  | cons y ys ih =>
    by_cases hy : p y = true
    · rw [List.find?_cons_of_pos _ hy] at h
      rw [List.cons_append, List.find?_cons_of_pos _ hy]
      exact h
    · rw [List.find?_cons_of_neg _ hy] at h
      rw [List.cons_append, List.find?_cons_of_neg _ hy]
      exact ih h

theorem find?_overwrite (k : String) (v : Payload) (d : List (String × Payload))
    (h : d.any (fun p => p.1 == k) = true) :
    (d.map fun p => if p.1 == k then (k, v) else p).find? (fun p => p.1 == k) = some (k, v) := by
  induction d with
  | nil => simp at h
  | cons p0 d2 ih =>
    by_cases hp : p0.1 = k
    · rw [List.map_cons, if_pos (by simpa using hp)]
      rw [List.find?_cons_of_pos _ (by simp)]
    · have h2 : d2.any (fun p => p.1 == k) = true := by
        simp only [List.any_cons] at h
        simpa [hp] using h
      rw [List.map_cons, if_neg (by simpa using hp)]
      rw [List.find?_cons_of_neg _ (by simpa using hp)]
      exact ih h2

theorem find?_overwrite_ne {k2 k : String} (hne : k2 ≠ k) (v : Payload)
    (d : List (String × Payload)) :
    (d.map fun p => if p.1 == k then (k, v) else p).find? (fun p => p.1 == k2) =
      d.find? (fun p => p.1 == k2) := by
  induction d with
  | nil => rfl
  | cons p0 d2 ih =>
    by_cases hp : p0.1 = k
    · rw [List.map_cons, if_pos (by simpa using hp)]
      have hk2 : ((k, v).1 == k2) = false := by
        simp only [beq_eq_false_iff_ne, ne_eq]
        exact fun he => hne he.symm
      have hp2 : (p0.1 == k2) = false := by
        simp only [beq_eq_false_iff_ne, ne_eq, hp]
        exact fun he => hne he.symm
      rw [List.find?_cons, List.find?_cons, hk2, hp2]
      exact ih
    · rw [List.map_cons, if_neg (by simpa using hp)]
      by_cases hq : p0.1 = k2
      · rw [List.find?_cons_of_pos _ (by simpa using hq),
          List.find?_cons_of_pos _ (by simpa using hq)]
      · rw [List.find?_cons_of_neg _ (by simpa using hq),
          List.find?_cons_of_neg _ (by simpa using hq)]
        exact ih

theorem dictGet_insert_self (d : List (String × Payload)) (k : String) (v : Payload) :
    dictGet (dictInsert d k v) k = some v := by
  unfold dictInsert dictGet
  by_cases h : d.any (fun p => p.1 == k) = true
  · rw [if_pos h, find?_overwrite k v d h]
    rfl
  · rw [if_neg h]
    have hf : d.find? (fun p => p.1 == k) = none := by
      rw [List.find?_eq_none]
      intro p hp hk
      simp only [List.any_eq_true, not_exists] at h
      exact h p ⟨hp, hk⟩
    rw [find?_append_none hf]
    simp

theorem dictGet_insert_ne {k2 k : String} (hne : k2 ≠ k) (d : List (String × Payload))
    (v : Payload) : dictGet (dictInsert d k v) k2 = dictGet d k2 := by
  unfold dictInsert dictGet
  by_cases h : d.any (fun p => p.1 == k) = true
  · rw [if_pos h, find?_overwrite_ne hne v d]
  · rw [if_neg h]
    cases hd : d.find? (fun p => p.1 == k2) with
    | some x => rw [find?_append_some hd]
    | none =>
      rw [find?_append_none hd]
      have hkk : ((k, v).1 == k2) = false := by
        simp only [beq_eq_false_iff_ne, ne_eq]
        exact fun he => hne he.symm
      rw [List.find?_cons, hkk]
      simp [hd]


theorem extract_get_stable (cids : List String) (results : List QueryResult) (k : String)
    (hk : ∀ r ∈ results, r.chunk.id ≠ k) (d : List (String × Payload)) :
    dictGet (results.foldl (fun d r => if cids.contains r.chunk.id
        then dictInsert d r.chunk.id (payloadOf r) else d) d) k = dictGet d k := by
  induction results generalizing d with
  | nil => rfl
  | cons r rest ih =>
    rw [List.foldl_cons]
    have hr : r.chunk.id ≠ k := hk r (List.mem_cons_self r rest)
    have hrest : ∀ r2 ∈ rest, r2.chunk.id ≠ k := fun r2 h2 => hk r2 (List.mem_cons_of_mem r h2)
    by_cases hc : cids.contains r.chunk.id = true
    · rw [if_pos hc, ih hrest]
      exact dictGet_insert_ne (fun he => hr he.symm) d (payloadOf r)
    · rw [if_neg hc]
      exact ih hrest d

theorem extract_get_value (cids : List String) (results : List QueryResult)
    (hnd : (results.map fun r => r.chunk.id).Nodup) (r : QueryResult) (hr : r ∈ results)
    (hc : cids.contains r.chunk.id = true) (d : List (String × Payload)) :
    dictGet (results.foldl (fun d r => if cids.contains r.chunk.id
        then dictInsert d r.chunk.id (payloadOf r) else d) d) r.chunk.id =
      some (payloadOf r) := by
  induction results generalizing d with
  | nil => simp at hr
  | cons x rest ih =>
    rw [List.foldl_cons]
    simp only [List.map_cons, List.nodup_cons] at hnd
    obtain ⟨hx, hnd2⟩ := hnd
    rcases List.mem_cons.mp hr with heq | hr2
    · subst heq
      rw [if_pos hc]
      have hne : ∀ r2 ∈ rest, r2.chunk.id ≠ r.chunk.id := by
        intro r2 h2 he
        exact hx (he ▸ List.mem_map_of_mem (fun r => r.chunk.id) h2)
      rw [extract_get_stable cids rest r.chunk.id hne _]
      exact dictGet_insert_self d r.chunk.id (payloadOf r)
    · by_cases hcx : cids.contains x.chunk.id = true
      · rw [if_pos hcx]
        exact ih hnd2 hr2 _
      · rw [if_neg hcx]
        exact ih hnd2 hr2 _

theorem extract_get_keys (cids : List String) (results : List QueryResult) (k : String)
    (d : List (String × Payload)) :
    dictGet (results.foldl (fun d r => if cids.contains r.chunk.id
        then dictInsert d r.chunk.id (payloadOf r) else d) d) k ≠ none ↔
      dictGet d k ≠ none ∨ (cids.contains k = true ∧ ∃ r ∈ results, r.chunk.id = k) := by
  induction results generalizing d with
  | nil => simp
  | cons x rest ih =>
    rw [List.foldl_cons]
    by_cases hx : x.chunk.id = k
    · by_cases hc : cids.contains x.chunk.id = true
      · rw [if_pos hc, ih]
        have hL : dictGet (dictInsert d x.chunk.id (payloadOf x)) k ≠ none := by
          rw [hx, dictGet_insert_self]
          simp
        have hR : cids.contains k = true := hx ▸ hc
        constructor
        · intro _
          right
          exact ⟨hR, x, List.mem_cons_self x rest, hx⟩
        · intro _
          left
          exact hL
      · rw [if_neg hc, ih]
        have hck : ¬cids.contains k = true := by
          rw [← hx]
          exact hc
        constructor
        · rintro (h | ⟨h1, h2⟩)
          · left; exact h
          · exact absurd h1 hck
        · rintro (h | ⟨h1, h2⟩)
          · left; exact h
          · exact absurd h1 hck
    · have hkey : dictGet (if cids.contains x.chunk.id = true
          then dictInsert d x.chunk.id (payloadOf x) else d) k = dictGet d k := by
        by_cases hc : cids.contains x.chunk.id = true
        · rw [if_pos hc]
          exact dictGet_insert_ne (fun he => hx he.symm) d (payloadOf x)
        · rw [if_neg hc]
      rw [show (if cids.contains x.chunk.id = true
          then dictInsert d x.chunk.id (payloadOf x) else d) =
          (if cids.contains x.chunk.id then dictInsert d x.chunk.id (payloadOf x) else d)
        from rfl] at hkey
      rw [ih, hkey]
      constructor
      · rintro (h | ⟨h1, r, hr, he⟩)
        · left; exact h
        · right; exact ⟨h1, r, List.mem_cons_of_mem x hr, he⟩
      · rintro (h | ⟨h1, r, hr, he⟩)
        · left; exact h
        · rcases List.mem_cons.mp hr with heq | hr2
          · subst heq
            exact absurd he hx
          · right; exact ⟨h1, r, hr2, he⟩

/-- C3: the keys of extract_cited_chunks are exactly the identifiers occurring
as bracketed markers in the answer text that equal some candidate chunk id
(marker identifiers matching no candidate produce no entry), and each key maps
to the payload {docId, page, bbox, text} of the candidate with that id. -/
theorem extract_cited_chunks_spec :
    ∀ (answerText : String) (searchResults : List QueryResult),
      (searchResults.map fun r => r.chunk.id).Nodup →
      (∀ k : String, dictGet (extractCitedChunks answerText searchResults) k ≠ none ↔
        (k ∈ findallMarkers answerText.data ∧ ∃ r ∈ searchResults, r.chunk.id = k)) ∧
      (∀ r ∈ searchResults, r.chunk.id ∈ findallMarkers answerText.data →
        dictGet (extractCitedChunks answerText searchResults) r.chunk.id =
          some ⟨r.doc.id, r.chunk.pageNum, r.chunk.bbox, r.chunk.text⟩) := by
  intro answerText searchResults hnd
  constructor
  · intro k
    unfold extractCitedChunks
    rw [extract_get_keys]
    have hget : dictGet ([] : List (String × Payload)) k = none := rfl
    rw [hget]
    simp only [ne_eq, not_true_eq_false, false_or]
    constructor
    · rintro ⟨h1, h2⟩
      exact ⟨List.elem_iff.mp h1, h2⟩
    · rintro ⟨h1, h2⟩
      exact ⟨List.elem_iff.mpr h1, h2⟩
  · intro r hr hmem
    unfold extractCitedChunks
    have hc : (findallMarkers answerText.data).contains r.chunk.id = true := by
      exact List.elem_iff.mpr hmem
    exact extract_get_value (findallMarkers answerText.data) searchResults hnd r hr hc []


/-- Witness: extract_cited_chunks_spec on the round-trip example — answer
"X is defined. [abc123]" with one candidate abc123 resolves to its payload. -/
theorem extract_cited_chunks_spec_witness :
    dictGet (extractCitedChunks "X is defined. [abc123]"
        [⟨⟨"abc123", "X is defined.", ⟨1, 2, 3, 4⟩, 2, []⟩, ⟨"d1", "T"⟩, 2, 1⟩]) "abc123" =
      some ⟨"d1", 2, ⟨1, 2, 3, 4⟩, "X is defined."⟩ :=
  (extract_cited_chunks_spec "X is defined. [abc123]"
      [⟨⟨"abc123", "X is defined.", ⟨1, 2, 3, 4⟩, 2, []⟩, ⟨"d1", "T"⟩, 2, 1⟩] (by decide)).2
    ⟨⟨"abc123", "X is defined.", ⟨1, 2, 3, 4⟩, 2, []⟩, ⟨"d1", "T"⟩, 2, 1⟩
    (List.mem_singleton.mpr rfl) (by decide)

/-! ### Helper lemmas: the marker scanner -/

theorem breakClose_no_close {idc : List Char} (h : ']' ∉ idc) (rest : List Char) :
    breakClose (idc ++ ']' :: rest) = (idc, some rest) := by
  induction idc with
  | nil => simp [breakClose]
  | cons c cs ih =>
    have hc : ¬c = ']' := fun he => h (he ▸ List.mem_cons_self c cs)
    have h2 : ']' ∉ cs := fun hm => h (List.mem_cons_of_mem c hm)
    rw [List.cons_append]
    rw [breakClose]
    simp only [if_neg hc, ih h2]

theorem subMarkersF_fuel_aux (repl : String → String) :
    ∀ (n fuel1 fuel2 : Nat) (cs : List Char), cs.length ≤ n →
      cs.length ≤ fuel1 → cs.length ≤ fuel2 →
      subMarkersF repl fuel1 cs = subMarkersF repl fuel2 cs := by
  intro n
  induction n with
  | zero =>
    intro fuel1 fuel2 cs h0 _ _
    have hnil : cs = [] := List.eq_nil_of_length_eq_zero (Nat.le_zero.mp h0)
    subst hnil
    cases fuel1 <;> cases fuel2 <;> rfl
  | succ n ihn =>
    intro fuel1 fuel2 cs hcs h1 h2
    cases cs with
    | nil => cases fuel1 <;> cases fuel2 <;> rfl
    | cons c rest =>
      cases fuel1 with
      | zero => simp at h1
      | succ f1 =>
        cases fuel2 with
        | zero => simp at h2
        | succ f2 =>
          simp only [List.length_cons, Nat.add_le_add_iff_right] at hcs h1 h2
          simp only [subMarkersF]
          by_cases hc : c = '['
          · rw [if_pos hc, if_pos hc]
            cases hbc : breakClose rest with
            | mk run opt =>
              cases opt with
              | some tail =>
                dsimp only
                have htl : tail.length < rest.length := breakClose_some_length hbc
                by_cases hrun : run.isEmpty = true
                · rw [if_pos hrun, if_pos hrun]
                  exact congrArg (c :: ·) (ihn f1 f2 rest hcs h1 h2)
                · rw [if_neg hrun, if_neg hrun]
                  exact congrArg ((repl ⟨run⟩).data ++ ·)
                    (ihn f1 f2 tail (Nat.le_of_lt (Nat.lt_of_lt_of_le htl hcs))
                      (Nat.le_of_lt (Nat.lt_of_lt_of_le htl h1))
                      (Nat.le_of_lt (Nat.lt_of_lt_of_le htl h2)))
              | none =>
                dsimp only
                exact congrArg (c :: ·) (ihn f1 f2 rest hcs h1 h2)
          · rw [if_neg hc, if_neg hc]
            exact congrArg (c :: ·) (ihn f1 f2 rest hcs h1 h2)

theorem subMarkersF_eq (repl : String → String) {fuel : Nat} {cs : List Char}
    (h : cs.length ≤ fuel) : subMarkersF repl fuel cs = subMarkers repl cs :=
  subMarkersF_fuel_aux repl cs.length fuel cs.length cs le_rfl h le_rfl

theorem subMarkers_cons_no_open (repl : String → String) {c : Char} (hc : ¬c = '[')
    (rest : List Char) : subMarkers repl (c :: rest) = c :: subMarkers repl rest := by
  show subMarkersF repl (c :: rest).length (c :: rest) = _
  rw [List.length_cons]
  simp only [subMarkersF]
  rw [if_neg hc]
  rfl

theorem subMarkers_append_no_open (repl : String → String) {pre : List Char}
    (h : '[' ∉ pre) (rest : List Char) :
    subMarkers repl (pre ++ rest) = pre ++ subMarkers repl rest := by
  induction pre with
  | nil => rfl
  | cons c cs ih =>
    have hc : ¬c = '[' := fun he => h (he ▸ List.mem_cons_self c cs)
    have h2 : '[' ∉ cs := fun hm => h (List.mem_cons_of_mem c hm)
    rw [List.cons_append, subMarkers_cons_no_open repl hc, ih h2, List.cons_append]

theorem subMarkers_marker (repl : String → String) {idc : List Char} (hne : idc ≠ [])
    (hnc : ']' ∉ idc) (rest : List Char) :
    subMarkers repl ('[' :: (idc ++ ']' :: rest)) =
      (repl ⟨idc⟩).data ++ subMarkers repl rest := by
  show subMarkersF repl ('[' :: (idc ++ ']' :: rest)).length _ = _
  rw [List.length_cons]
  simp only [subMarkersF]
  rw [if_pos trivial, breakClose_no_close hnc rest]
  dsimp only
  rw [if_neg (by simpa [List.isEmpty_iff] using hne)]
  have hlen : rest.length ≤ (idc ++ ']' :: rest).length := by
    simp
    omega
  rw [subMarkersF_eq repl hlen]


/-- A text given as a bracket-free lead segment followed by marker/segment
pairs: seg0 [id1] s1 [id2] s2 ... -/
def markerText (seg0 : String) : List (String × String) → String
  | [] => seg0
  | (id1, s1) :: rest => seg0 ++ "[" ++ id1 ++ "]" ++ markerText s1 rest

/-- The same text with every marker replaced through repl. -/
def markerOut (repl : String → String) (seg0 : String) : List (String × String) → String
  | [] => seg0
  | (id1, s1) :: rest => seg0 ++ repl id1 ++ markerOut repl s1 rest

theorem subMarkers_markerText (repl : String → String) (parts : List (String × String)) :
    ∀ seg0 : String, '[' ∉ seg0.data →
    (∀ pr ∈ parts, pr.1 ≠ "" ∧ ']' ∉ pr.1.data ∧ '[' ∉ pr.2.data) →
    subMarkers repl (markerText seg0 parts).data = (markerOut repl seg0 parts).data := by
  induction parts with
  | nil =>
    intro seg0 hseg0 _
    show subMarkers repl seg0.data = seg0.data
    have h := subMarkers_append_no_open repl hseg0 []
    have h0 : subMarkers repl [] = [] := rfl
    simpa [h0] using h
  | cons pr rest ih =>
    intro seg0 hseg0 hparts
    obtain ⟨id1, s1⟩ := pr
    obtain ⟨hid_ne, hid_nc, hs1⟩ := hparts (id1, s1) (List.mem_cons_self _ _)
    have hrest : ∀ pr ∈ rest, pr.1 ≠ "" ∧ ']' ∉ pr.1.data ∧ '[' ∉ pr.2.data :=
      fun pr h => hparts pr (List.mem_cons_of_mem _ h)
    have hid_ne2 : id1.data ≠ [] := by
      intro he
      apply hid_ne
      apply String.ext
      rw [he]
    have harg : (markerText seg0 ((id1, s1) :: rest)).data =
        seg0.data ++ ('[' :: (id1.data ++ (']' :: (markerText s1 rest).data))) := by
      rw [markerText]
      simp only [String.data_append, List.append_assoc]
      rfl
    rw [harg, subMarkers_append_no_open repl hseg0,
      subMarkers_marker repl hid_ne2 hid_nc, ih s1 hs1 hrest, markerOut]
    simp [String.data_append, List.append_assoc]

/-- C4 (amended: the matched identifier is stripped of surrounding whitespace
before lookup): linkify_citations replaces each marker whose stripped
identifier has a resolved payload by the anchor built from the viewer URL
encoding docId, page and the comma-joined bbox coordinates, leaves the
bracket-free segments between markers untouched, and applies the same
replacement to every occurrence of the same identifier. -/
theorem linkify_citations_spec :
    (∀ (m : List (String × Payload)) (seg0 : String) (parts : List (String × String)),
      '[' ∉ seg0.data →
      (∀ pr ∈ parts, pr.1 ≠ "" ∧ ']' ∉ pr.1.data ∧ '[' ∉ pr.2.data) →
      linkifyCitations (markerText seg0 parts) m = markerOut (linkRepl m) seg0 parts) ∧
    (∀ (m : List (String × Payload)) (idStr : String) (p : Payload),
      dictGet m (pyStrip idStr) = some p →
      linkRepl m idStr =
        "[<a href=\x27" ++ viewerUrl p ++ "\x27 target=\x27_blank\x27 rel=\x27noopener\x27>" ++
          pyStrip idStr ++ "</a>]") ∧
    (∀ p : Payload, viewerUrl p =
      "/viewer?doc=" ++ p.docId ++ "&page=" ++ toString p.page ++ "&bbox=" ++
        ratStr p.bbox.l ++ "," ++ ratStr p.bbox.t ++ "," ++ ratStr p.bbox.r ++ "," ++
        ratStr p.bbox.b) := by
  refine ⟨?_, ?_, fun _ => rfl⟩
  · intro m seg0 parts hseg0 hparts
    apply String.ext
    exact subMarkers_markerText (linkRepl m) parts seg0 hseg0 hparts
  · intro m idStr p h
    unfold linkRepl
    simp only [h]

/-- Witness: linkify_citations_spec on the round-trip example — the resolved
marker [abc123] becomes the anchor with doc d1, page 2, bbox 1,2,3,4. -/
theorem linkify_citations_spec_witness :
    linkifyCitations (markerText "X is defined. " [("abc123", "")])
        [("abc123", ⟨"d1", 2, ⟨1, 2, 3, 4⟩, "t"⟩)] =
      markerOut (linkRepl [("abc123", ⟨"d1", 2, ⟨1, 2, 3, 4⟩, "t"⟩)]) "X is defined. "
        [("abc123", "")] ∧
    linkRepl [("abc123", ⟨"d1", 2, ⟨1, 2, 3, 4⟩, "t"⟩)] "abc123" =
      "[<a href=\x27" ++ viewerUrl ⟨"d1", 2, ⟨1, 2, 3, 4⟩, "t"⟩ ++
        "\x27 target=\x27_blank\x27 rel=\x27noopener\x27>" ++ pyStrip "abc123" ++ "</a>]" :=
  ⟨linkify_citations_spec.1 _ "X is defined. " [("abc123", "")] (by decide) (by decide),
   linkify_citations_spec.2.1 _ "abc123" _ (by decide)⟩

/-- C4 counterexample: in the mapping the raw identifier " x" has a resolved
payload, yet linkify_citations on "[ x]" returns "[x]" — the marker is not
replaced by a reference encoding the payload (the output has no bbox at all),
because the code looks up the stripped identifier "x" instead. -/
theorem linkify_citations_counterexample :
    linkifyCitations "[ x]" [(" x", ⟨"d1", 2, ⟨1, 2, 3, 4⟩, "t"⟩)] = "[x]" ∧
    strContains "[x]" "bbox" = false ∧
    dictGet [(" x", ⟨"d1", 2, ⟨1, 2, 3, 4⟩, "t"⟩)] " x" =
      some ⟨"d1", 2, ⟨1, 2, 3, 4⟩, "t"⟩ :=
  ⟨by decide, by decide, by decide⟩

theorem markerOut_unresolved (m : List (String × Payload)) (parts : List (String × String)) :
    ∀ seg0 : String, (∀ pr ∈ parts, dictGet m (pyStrip pr.1) = none) →
    markerOut (linkRepl m) seg0 parts =
      markerText seg0 (parts.map fun pr => (pyStrip pr.1, pr.2)) := by
  induction parts with
  | nil => intro seg0 _; rfl
  | cons pr rest ih =>
    intro seg0 hun
    obtain ⟨id1, s1⟩ := pr
    have h1 := hun (id1, s1) (List.mem_cons_self _ _)
    have hrest : ∀ pr ∈ rest, dictGet m (pyStrip pr.1) = none :=
      fun pr h => hun pr (List.mem_cons_of_mem _ h)
    have h1b : dictGet m (pyStrip id1) = none := h1
    rw [markerOut, List.map_cons, markerText]
    rw [show linkRepl m id1 = "[" ++ pyStrip id1 ++ "]" by
      unfold linkRepl
      simp only [h1b]]
    rw [ih s1 hrest]
    simp [String.append_assoc]


/-- C5 (amended: the marker is re-emitted with the *stripped* identifier):
every marker whose stripped identifier has no payload in the evidence mapping
is rewritten to the stripped identifier in brackets; hence whenever the
identifier carries no surrounding whitespace — in particular [zzz999] — the
marker remains literally unchanged. -/
theorem unresolved_marker_spec :
    (∀ (m : List (String × Payload)) (seg0 : String) (parts : List (String × String)),
      '[' ∉ seg0.data →
      (∀ pr ∈ parts, pr.1 ≠ "" ∧ ']' ∉ pr.1.data ∧ '[' ∉ pr.2.data) →
      (∀ pr ∈ parts, dictGet m (pyStrip pr.1) = none) →
      linkifyCitations (markerText seg0 parts) m =
        markerText seg0 (parts.map fun pr => (pyStrip pr.1, pr.2))) ∧
    (∀ (m : List (String × Payload)) (seg0 : String) (parts : List (String × String)),
      '[' ∉ seg0.data →
      (∀ pr ∈ parts, pr.1 ≠ "" ∧ ']' ∉ pr.1.data ∧ '[' ∉ pr.2.data) →
      (∀ pr ∈ parts, dictGet m (pyStrip pr.1) = none) →
      (∀ pr ∈ parts, pyStrip pr.1 = pr.1) →
      linkifyCitations (markerText seg0 parts) m = markerText seg0 parts) ∧
    linkifyCitations "[zzz999]" [] = "[zzz999]" := by
  have hmain : ∀ (m : List (String × Payload)) (seg0 : String)
      (parts : List (String × String)),
      '[' ∉ seg0.data →
      (∀ pr ∈ parts, pr.1 ≠ "" ∧ ']' ∉ pr.1.data ∧ '[' ∉ pr.2.data) →
      (∀ pr ∈ parts, dictGet m (pyStrip pr.1) = none) →
      linkifyCitations (markerText seg0 parts) m =
        markerText seg0 (parts.map fun pr => (pyStrip pr.1, pr.2)) := by
    intro m seg0 parts hseg0 hparts hun
    have h1 : linkifyCitations (markerText seg0 parts) m =
        markerOut (linkRepl m) seg0 parts := by
      apply String.ext
      exact subMarkers_markerText (linkRepl m) parts seg0 hseg0 hparts
    rw [h1]
    exact markerOut_unresolved m parts seg0 hun
  refine ⟨hmain, ?_, by decide⟩
  intro m seg0 parts hseg0 hparts hun hid
  rw [hmain m seg0 parts hseg0 hparts hun]
  have : (parts.map fun pr => (pyStrip pr.1, pr.2)) = parts := by
    have := List.map_congr_left (l := parts) (f := fun pr => (pyStrip pr.1, pr.2)) (g := id)
      ?_
    · rw [this, List.map_id]
    · intro pr hpr
      show (pyStrip pr.1, pr.2) = pr
      rw [hid pr hpr]
  rw [this]

/-- Witness: unresolved_marker_spec applied to the text "see [zzz999] end" with
an empty mapping — the text is returned unchanged — and to the bare marker. -/
theorem unresolved_marker_spec_witness :
    linkifyCitations (markerText "see " [("zzz999", " end")]) [] =
      markerText "see " [("zzz999", " end")] ∧
    linkifyCitations "[zzz999]" [] = "[zzz999]" :=
  ⟨unresolved_marker_spec.2.1 [] "see " [("zzz999", " end")] (by decide) (by decide)
      (by decide) (by decide),
   unresolved_marker_spec.2.2⟩

/-- C5 counterexample: the unresolved marker "[ zzz999 ]" does not remain
unchanged — linkify_citations re-emits it with the stripped identifier. -/
theorem unresolved_marker_counterexample :
    linkifyCitations "[ zzz999 ]" [] = "[zzz999]" ∧
    ("[zzz999]" : String) ≠ "[ zzz999 ]" :=
  ⟨by decide, by decide⟩


set_option maxRecDepth 1000000 in
/-- Witness: empty_chunk_exclusion applied to a concrete input whose first
proposed chunk strips to empty — the emitted chunk has non-empty trimmed text. -/
theorem empty_chunk_exclusion_witness :
    ("hi" : String) ≠ "" ∧ pyStrip "hi" = "hi" :=
  empty_chunk_exclusion.2 (fun _ => []) [⟨"   ", [], []⟩, ⟨" hi ", [], []⟩]
    ⟨make_id "hi" 1, "hi", 1, ⟨0, 0, 0, 0⟩, [], []⟩ (by decide)

/-! ### Helper lemmas: sorting by descending score -/

theorem insertDesc_mem (r : QueryResult) (l : List QueryResult) (x : QueryResult) :
    x ∈ insertDesc r l ↔ x = r ∨ x ∈ l := by
  induction l with
  | nil => simp [insertDesc]
  | cons y ys ih =>
    rw [insertDesc]
    by_cases h : y.score ≤ r.score
    · rw [if_pos h]
      simp [List.mem_cons]
    · rw [if_neg h]
      simp only [List.mem_cons, ih]
      tauto

theorem insertDesc_length (r : QueryResult) (l : List QueryResult) :
    (insertDesc r l).length = l.length + 1 := by
  induction l with
  | nil => rfl
  | cons y ys ih =>
    rw [insertDesc]
    by_cases h : y.score ≤ r.score
    · rw [if_pos h]
      rfl
    · rw [if_neg h]
      simp [ih]

theorem insertDesc_pairwise (r : QueryResult) (l : List QueryResult)
    (h : List.Pairwise (fun a b => b.score ≤ a.score) l) :
    List.Pairwise (fun a b => b.score ≤ a.score) (insertDesc r l) := by
  induction l with
  | nil => simp [insertDesc]
  | cons y ys ih =>
    rw [insertDesc]
    rcases List.pairwise_cons.mp h with ⟨hy, hys⟩
    by_cases hc : y.score ≤ r.score
    · rw [if_pos hc]
      refine List.pairwise_cons.mpr ⟨?_, h⟩
      intro b hb
      rcases List.mem_cons.mp hb with heq | hb2
      · rw [heq]
        exact hc
      · exact le_trans (hy b hb2) hc
    · rw [if_neg hc]
      refine List.pairwise_cons.mpr ⟨?_, ih hys⟩
      intro b hb
      rcases (insertDesc_mem r ys b).mp hb with heq | hb2
      · rw [heq]
        exact le_of_lt (lt_of_not_le hc)
      · exact hy b hb2

theorem sortDesc_pairwise (l : List QueryResult) :
    List.Pairwise (fun a b => b.score ≤ a.score) (sortDesc l) := by
  induction l with
  | nil => exact List.Pairwise.nil
  | cons x xs ih => exact insertDesc_pairwise x (sortDesc xs) ih

theorem sortDesc_length (l : List QueryResult) : (sortDesc l).length = l.length := by
  induction l with
  | nil => rfl
  | cons x xs ih =>
    show (insertDesc x (sortDesc xs)).length = xs.length + 1
    rw [insertDesc_length, ih]

theorem flatMap_length_le {α β : Type} (f : α → List β) (l : List α)
    (h : ∀ x ∈ l, (f x).length ≤ 1) : (l.flatMap f).length ≤ l.length := by
  induction l with
  | nil => simp
  | cons x xs ih =>
    rw [List.flatMap_cons, List.length_append]
    have h1 := h x (List.mem_cons_self x xs)
    have h2 := ih fun y hy => h y (List.mem_cons_of_mem x hy)
    simp only [List.length_cons]
    omega

/-- C6: every result list of vector_search has non-increasing scores, and —
given the vector index contract that at most k candidates are yielded and the
store constraint that each candidate joins to at most one Page/Document row —
its length is at most min k limit. -/
theorem vector_search_ranking :
    ∀ (st : Store) (outcome : Except String (List (StoreChunk × ℚ))) (k : Nat)
      (docType : Option String) (lim : Nat),
      (∀ cands, outcome = Except.ok cands → cands.length ≤ k ∧
        ∀ cs ∈ cands, (joinRows st cs.1 cs.2).length ≤ 1) →
      List.Pairwise (fun a b => b.score ≤ a.score) (vector_search st outcome docType lim) ∧
      (vector_search st outcome docType lim).length ≤ min k lim := by
  intro st outcome k docType lim hok
  cases outcome with
  | error e => simp [vector_search]
  | ok cands =>
    obtain ⟨hk, hjoin⟩ := hok cands rfl
    unfold vector_search vectorSearchRows
    constructor
    · exact List.Pairwise.sublist (List.take_sublist _ _) (sortDesc_pairwise _)
    · rw [List.length_take]
      have h1 : (applyFamilyFilter st docType cands).length ≤ cands.length := by
        unfold applyFamilyFilter
        cases docType with
        | none => exact le_rfl
        | some dt =>
          dsimp only
          by_cases hdt : (dt = "" || dt = "general") = true
          · rw [if_pos hdt]
          · rw [if_neg hdt]
            exact List.length_filter_le _ _
      have h2 : ∀ cs ∈ applyFamilyFilter st docType cands,
          (joinRows st cs.1 cs.2).length ≤ 1 := by
        intro cs hcs
        apply hjoin
        unfold applyFamilyFilter at hcs
        cases docType with
        | none => exact hcs
        | some dt =>
          dsimp only at hcs
          by_cases hdt : (dt = "" || dt = "general") = true
          · rw [if_pos hdt] at hcs
            exact hcs
          · rw [if_neg hdt] at hcs
            exact List.mem_of_mem_filter hcs
      have h3 := flatMap_length_le _ _ h2
      have h4 := sortDesc_length
        ((applyFamilyFilter st docType cands).flatMap fun cs => joinRows st cs.1 cs.2)
      omega

/-- Witness: vector_search_ranking on a concrete two-chunk store with unsorted
candidate scores. -/
theorem vector_search_ranking_witness :
    List.Pairwise (fun a b => b.score ≤ a.score)
      (vector_search
        ⟨[⟨"d1", "T", "general"⟩], [⟨"d1", 1⟩],
          [⟨"c1", "t1", 1, ⟨0, 0, 0, 0⟩, [], none⟩, ⟨"c2", "t2", 1, ⟨0, 0, 0, 0⟩, [], none⟩],
          [("c1", ("d1", 1)), ("c2", ("d1", 1))], [(("d1", 1), "d1")]⟩
        (Except.ok [(⟨"c1", "t1", 1, ⟨0, 0, 0, 0⟩, [], none⟩, 1),
          (⟨"c2", "t2", 1, ⟨0, 0, 0, 0⟩, [], none⟩, 2)]) none 5) ∧
    (vector_search
        ⟨[⟨"d1", "T", "general"⟩], [⟨"d1", 1⟩],
          [⟨"c1", "t1", 1, ⟨0, 0, 0, 0⟩, [], none⟩, ⟨"c2", "t2", 1, ⟨0, 0, 0, 0⟩, [], none⟩],
          [("c1", ("d1", 1)), ("c2", ("d1", 1))], [(("d1", 1), "d1")]⟩
        (Except.ok [(⟨"c1", "t1", 1, ⟨0, 0, 0, 0⟩, [], none⟩, 1),
          (⟨"c2", "t2", 1, ⟨0, 0, 0, 0⟩, [], none⟩, 2)]) none 5).length ≤ min 10 5 :=
  vector_search_ranking _ _ 10 none 5
    (fun cands2 h => by
      injection h with h2
      subst h2
      exact ⟨by decide, by decide⟩)


/-- C7: a failed similarity query yields the empty result list; a store with
zero chunks yields the empty result list (the index can only return stored
chunks); and on an empty result list the query endpoint returns the well-formed
placeholder response with no chunks and no cited chunks, never an exception. -/
theorem no_results_path :
    (∀ (st : Store) (e : String) (docType : Option String) (lim : Nat),
      vector_search st (Except.error e) docType lim = []) ∧
    (∀ (st : Store) (cands : List (StoreChunk × ℚ)) (docType : Option String) (lim : Nat),
      st.chunks = [] → (∀ cs ∈ cands, cs.1 ∈ st.chunks) →
      vector_search st (Except.ok cands) docType lim = []) ∧
    (∀ (q : String) (st : Store) (outcome : Except String (List (StoreChunk × ℚ)))
      (docType : Option String) (lim : Nat),
      vector_search st outcome docType lim = [] →
      queryDocuments q st outcome docType lim =
        ⟨"No relevant documents found for your query.", [], []⟩) := by
  refine ⟨fun _ _ _ _ => rfl, ?_, ?_⟩
  · intro st cands docType lim hchunks hsub
    have hc : cands = [] := by
      cases cands with
      | nil => rfl
      | cons c cs =>
        have hm := hsub c (List.mem_cons_self c cs)
        rw [hchunks] at hm
        simp at hm
    subst hc
    have hAff : applyFamilyFilter st docType [] = [] := by
      cases docType with
      | none => rfl
      | some dt =>
        dsimp only [applyFamilyFilter]
        split <;> rfl
    show (sortDesc ((applyFamilyFilter st docType []).flatMap
      fun cs => joinRows st cs.1 cs.2)).take lim = []
    rw [hAff]
    exact List.take_nil
  · intro q st outcome docType lim hempty
    unfold queryDocuments queryRespond
    rw [hempty]
    rfl

/-- Witness: no_results_path on a concrete empty store and on a failed query —
both give the empty list, and the endpoint returns the placeholder response. -/
theorem no_results_path_witness :
    vector_search ⟨[], [], [], [], []⟩ (Except.ok []) none 5 = [] ∧
    queryDocuments "q" ⟨[], [], [], [], []⟩ (Except.error "index missing") none 5 =
      ⟨"No relevant documents found for your query.", [], []⟩ :=
  ⟨no_results_path.2.1 ⟨[], [], [], [], []⟩ [] none 5 rfl (by simp),
   no_results_path.2.2 "q" ⟨[], [], [], [], []⟩ (Except.error "index missing") none 5
     (no_results_path.1 ⟨[], [], [], [], []⟩ "index missing" none 5)⟩

/-- C8: with doc_type unset (None, or empty per Python truthiness) or equal to
the sentinel "general", no family restriction is applied; with doc_type set to
any other value, the candidates are restricted to exactly those whose own
family tag equals the filter or whose owning Document along IN_PAGE and OF has
family equal to the filter; and this filter is what vector_search applies
before joining, ordering and truncating. -/
theorem family_filter_spec :
    (∀ (st : Store) (cands : List (StoreChunk × ℚ)),
      applyFamilyFilter st none cands = cands ∧
      applyFamilyFilter st (some "") cands = cands ∧
      applyFamilyFilter st (some "general") cands = cands) ∧
    (∀ (st : Store) (dt : String) (cands : List (StoreChunk × ℚ)) (cs : StoreChunk × ℚ),
      dt ≠ "" → dt ≠ "general" →
      (cs ∈ applyFamilyFilter st (some dt) cands ↔
        cs ∈ cands ∧ (cs.1.family = some dt ∨
          ∃ pk, (cs.1.id, pk) ∈ st.inPage ∧ ∃ did, (pk, did) ∈ st.ofDoc ∧
            ∃ d ∈ st.docs, d.id = did ∧ d.family = dt))) ∧
    (∀ (st : Store) (cands : List (StoreChunk × ℚ)) (docType : Option String) (lim : Nat),
      vectorSearchRows st cands docType lim =
        (sortDesc ((applyFamilyFilter st docType cands).flatMap
          fun cs => joinRows st cs.1 cs.2)).take lim) := by
  refine ⟨?_, ?_, fun _ _ _ _ => rfl⟩
  · intro st cands
    refine ⟨rfl, ?_, ?_⟩ <;> simp [applyFamilyFilter]
  · intro st dt cands cs h1 h2
    show cs ∈ (if (dt = "" || dt = "general") = true then cands
      else cands.filter fun cs => familyPred st dt cs.1) ↔ _
    rw [if_neg (by simp [h1, h2])]
    rw [List.mem_filter]
    have hpathiff : (st.inPage.any fun e => e.1 == cs.1.id && st.ofDoc.any fun e2 =>
        e2.1 == e.2 && st.docs.any fun d => d.id == e2.2 && d.family == dt) = true ↔
        (∃ pk, (cs.1.id, pk) ∈ st.inPage ∧ ∃ did, (pk, did) ∈ st.ofDoc ∧
          ∃ d ∈ st.docs, d.id = did ∧ d.family = dt) := by
      simp only [List.any_eq_true, Bool.and_eq_true, beq_iff_eq]
      constructor
      · rintro ⟨e, he, he1, e2, he2, he21, d, hd, hd1, hd2⟩
        refine ⟨e.2, ?_, e2.2, ?_, d, hd, hd1, hd2⟩
        · rw [show ((cs.1.id, e.2) : String × String × Nat) = e from by rw [← he1]]
          exact he
        · rw [show ((e.2, e2.2) : (String × Nat) × String) = e2 from by rw [← he21]]
          exact he2
      · rintro ⟨pk, hpk, did, hdid, d, hd, hd1, hd2⟩
        exact ⟨(cs.1.id, pk), hpk, rfl, (pk, did), hdid, rfl, d, hd, hd1, hd2⟩
    have hfamiff : (match cs.1.family with
        | some f => f == dt
        | none => false) = true ↔ cs.1.family = some dt := by
      cases hf : cs.1.family with
      | none => simp
      | some f => simp
    have hiff : familyPred st dt cs.1 = true ↔
        (cs.1.family = some dt ∨
          ∃ pk, (cs.1.id, pk) ∈ st.inPage ∧ ∃ did, (pk, did) ∈ st.ofDoc ∧
            ∃ d ∈ st.docs, d.id = did ∧ d.family = dt) := by
      unfold familyPred
      rw [Bool.or_eq_true, hfamiff, hpathiff]
    rw [hiff]


/-- Witness: family_filter_spec on a concrete store — a chunk whose owning
Document has the filtered family passes the filter, and a None filter leaves
the candidates untouched. -/
theorem family_filter_spec_witness :
    ((⟨"cA", "t", 1, ⟨0, 0, 0, 0⟩, [], none⟩, (1 : ℚ)) ∈
      applyFamilyFilter
        ⟨[⟨"d1", "T", "legal"⟩], [⟨"d1", 1⟩],
          [⟨"cA", "t", 1, ⟨0, 0, 0, 0⟩, [], none⟩, ⟨"cB", "t", 1, ⟨0, 0, 0, 0⟩, [], none⟩],
          [("cA", ("d1", 1))], [(("d1", 1), "d1")]⟩
        (some "legal")
        [(⟨"cA", "t", 1, ⟨0, 0, 0, 0⟩, [], none⟩, 1),
         (⟨"cB", "t", 1, ⟨0, 0, 0, 0⟩, [], none⟩, 1)]) ∧
    applyFamilyFilter
        ⟨[⟨"d1", "T", "legal"⟩], [⟨"d1", 1⟩],
          [⟨"cA", "t", 1, ⟨0, 0, 0, 0⟩, [], none⟩, ⟨"cB", "t", 1, ⟨0, 0, 0, 0⟩, [], none⟩],
          [("cA", ("d1", 1))], [(("d1", 1), "d1")]⟩
        none
        [(⟨"cA", "t", 1, ⟨0, 0, 0, 0⟩, [], none⟩, 1),
         (⟨"cB", "t", 1, ⟨0, 0, 0, 0⟩, [], none⟩, 1)] =
      [(⟨"cA", "t", 1, ⟨0, 0, 0, 0⟩, [], none⟩, 1),
       (⟨"cB", "t", 1, ⟨0, 0, 0, 0⟩, [], none⟩, 1)] :=
  ⟨(family_filter_spec.2.1 _ "legal" _ _ (by decide) (by decide)).mpr
      ⟨by decide,
       Or.inr ⟨("d1", 1), by decide, "d1", by decide, ⟨"d1", "T", "legal"⟩, by decide,
         rfl, rfl⟩⟩,
   (family_filter_spec.1 _ _).1⟩

end LayoutRag
